import Mathlib

set_option maxRecDepth 4000

/-!
Verification of the EZIO-G500 LCD driver library.

Shallow embedding of the core of the repository:
* pkg/eziog500/framebuffer.go — the 128x64 pixel grid and its device wire format
* pkg/eziog500/device.go — the buffered serial device built on the external cu tool
* pkg/menu/menu.go — the menu navigation state machine
* the pfSense status daemon (statusd.go) — metrics cache, rate table, render tick
-/

namespace eziog500

/-- The 128x64 monochrome pixel grid of framebuffer.go, indexed data[y][x]. -/
def FrameBuffer := Fin 64 → Fin 128 → Bool

/-- NewFrameBuffer: all pixels off. -/
def NewFrameBuffer : FrameBuffer := fun _ _ => false

/-- SetPixel from framebuffer.go: out-of-range coordinates are clipped (no-op),
otherwise data[y][x] is set to the given value (Go parameter name: on). -/
def SetPixel (fb : FrameBuffer) (x y : Int) (v : Bool) : FrameBuffer :=
  if x < 0 ∨ 128 ≤ x ∨ y < 0 ∨ 64 ≤ y then fb
  else fun yy xx => if (yy.val : Int) = y ∧ (xx.val : Int) = x then v else fb yy xx

/-- One wire byte built from 8 vertical pixels: the inner loop of ToDeviceFormat
sets bit `bit` of the byte when the pixel predicate holds at that bit. -/
def byteOfColumn (g : Fin 8 → Bool) : Nat :=
  (List.finRange 8).foldl (fun b bit => if g bit then b ||| (1 <<< bit.val) else b) 0

/-- raw[band*128+x] of ToDeviceFormat: the vertical byte encoding rows
band*8 .. band*8+7 of column x (bit 0 = top row of the band). -/
def bandByte (fb : FrameBuffer) (band : Fin 8) (x : Fin 128) : Nat :=
  byteOfColumn (fun bit => fb ⟨band.val * 8 + bit.val, by
    have h1 := band.isLt; have h2 := bit.isLt; omega⟩ x)

/-- Position of the vertical byte of (band, column x) in the 1024-byte payload.
The Go encoder writes result[idx] sequentially: the left half (x < 64) occupies
idx = band*64 + x, the right half (64 ≤ x) occupies idx = 512 + band*64 + (x-64);
the Go decoder reads the same positions back. -/
def wireIndex (band : Fin 8) (x : Fin 128) : Fin 1024 :=
  if x.val < 64 then
    ⟨band.val * 64 + x.val, by have h1 := band.isLt; have h2 := x.isLt; omega⟩
  else
    ⟨512 + band.val * 64 + (x.val - 64), by
      have h1 := band.isLt; have h2 := x.isLt; omega⟩

/-- ToDeviceFormat from framebuffer.go. Byte i of the payload is the vertical
byte of band i/64, column i%64 for the left half (i < 512), and of band
(i-512)/64, column 64+(i-512)%64 for the right half — the inverse of the
sequential index map of the Go loops (see wireIndex). The XOR-with-0xFF that
the comment mentions is not performed: the code sends the raw bytes. -/
def ToDeviceFormat (fb : FrameBuffer) : Fin 1024 → Nat := fun i =>
  if h : i.val < 512 then
    bandByte fb ⟨i.val / 64, by omega⟩ ⟨i.val % 64, by omega⟩
  else
    bandByte fb ⟨(i.val - 512) / 64, by have := i.isLt; omega⟩
      ⟨64 + (i.val - 512) % 64, by omega⟩

/-- FromDeviceFormat from framebuffer.go: pixel (y, x) is bit y%8 of the wire
byte of band y/8, column x. -/
def FromDeviceFormat (data : Fin 1024 → Nat) : FrameBuffer := fun y x =>
  (data (wireIndex ⟨y.val / 8, by have := y.isLt; omega⟩ x)).testBit (y.val % 8)

/-- The framebuffer built by SetPixel(0,0,true) and SetPixel(0,7,true) on a
fresh framebuffer: only pixels (x=0,y=0) and (x=0,y=7) are lit. -/
def fbTwoPixels : FrameBuffer :=
  SetPixel (SetPixel NewFrameBuffer 0 0 true) 0 7 true

/-- Errors that device.go can report. Open reports none; flushWithCu wraps the
three fallible steps of driving the cu subprocess. A nonzero exit status of cu
after the data was written is only logged, never returned. -/
inductive IOErr
  | stdinPipeFailed
  | startCuFailed
  | writeToCuFailed
  deriving DecidableEq

/-- Device from device.go: the serial port path, the inter-command delay in
milliseconds, and the pending-write buffer. The Go struct holds no file
handle at all — every flush spawns a fresh cu subprocess. -/
structure Device where
  portPath : String
  commandDelay : ℚ
  buffer : List Nat
  deriving DecidableEq

/-- DefaultCommandDelay: 1 millisecond. -/
def DefaultCommandDelay : ℚ := 1

/-- Open from device.go. The Go function only constructs the Device struct with
the given path and the default delay and returns a nil error; it never touches
the filesystem or the serial line, so the outcome is the same for every path,
existing or not. -/
def Open (portPath : String) : Device × Option IOErr :=
  ({ portPath := portPath, commandDelay := DefaultCommandDelay, buffer := [] }, none)

/-- Write from device.go: append the bytes to the pending buffer, sleep for the
command delay (a real-time effect with no state impact), and return nil. -/
def Write (d : Device) (data : List Nat) : Device × Option IOErr :=
  ({ d with buffer := d.buffer ++ data }, none)

/-- Outcome of one interaction with the cu subprocess, the environment input of
flushWithCu: each constructor marks which step fails, ok carries whether
cu later exited nonzero (which the code logs and ignores). -/
inductive CuOutcome
  | stdinPipeErr
  | startErr
  | writeErr
  | ok (waitFailed : Bool)
  deriving DecidableEq

/-- flushWithCu from device.go: an empty buffer returns nil at once; otherwise
the buffered data is piped into a cu subprocess. A failure to create the stdin
pipe, start cu, or write the data is returned before the buffer is touched;
after a successful write the buffer is cleared and nil returned regardless of
the exit status of cu. -/
def flushWithCu (d : Device) (cu : CuOutcome) : Device × Option IOErr :=
  if d.buffer.isEmpty then (d, none)
  else
    match cu with
    | .stdinPipeErr => (d, some .stdinPipeFailed)
    | .startErr => (d, some .startCuFailed)
    | .writeErr => (d, some .writeToCuFailed)
    | .ok _ => ({ d with buffer := [] }, none)

/-- Flush from device.go: delegates to flushWithCu under the mutex. -/
def Flush (d : Device) (cu : CuOutcome) : Device × Option IOErr :=
  flushWithCu d cu

/-- LEDColor from the eziog500 package: Off, Red, Green, Orange (Orange is
realised by asserting both the red and the green channel). -/
inductive LEDColor
  | LEDOff
  | LEDRed
  | LEDGreen
  | LEDOrange
  deriving DecidableEq

end eziog500

namespace menu

/-- MenuItem from menu.go. Only the fields consulted by selection movement are
modelled; Action, SubMenu and Value are behavioural fields (closures and
subtree pointers) that SelectNext and SelectPrevious never read. -/
structure MenuItem where
  Label : String
  Disabled : Bool
  deriving DecidableEq

/-- Menu from menu.go: the item list plus the mutable navigation state. -/
structure Menu where
  Title : String
  Items : List MenuItem
  selected : Nat
  scrollOffset : Nat
  maxVisible : Nat
  deriving DecidableEq

/-- The test m.Items[i].Disabled of the Go loops. The loops only ever index in
range when Items is nonempty (an empty menu panics in Go and is excluded by
the theorems); out of range defaults to true so the loop stops. -/
def itemDisabledAt (items : List MenuItem) (i : Nat) : Bool :=
  match items.get? i with
  | some it => it.Disabled
  | none => true

/-- allDisabled from menu.go: true when no item is enabled. -/
def allDisabled (items : List MenuItem) : Bool :=
  items.all (fun it => it.Disabled)

/-- Loop body of SelectNext, with fuel. Each Go iteration increments selected,
wraps it to 0 at the end of the list, breaks on an enabled item, and breaks
anyway when every item is disabled; since an enabled item (when one exists) is
reached within length steps and the all-disabled test fires on the very first
iteration otherwise, fuel length+1 makes the fuelled loop identical to the
unbounded Go loop. -/
def selectLoopNext (items : List MenuItem) : Nat → Nat → Nat
  | 0, sel => sel
  | fuel + 1, sel =>
    let s := if sel + 1 ≥ items.length then 0 else sel + 1
    if ¬ itemDisabledAt items s then s
    else if allDisabled items then s
    else selectLoopNext items fuel s

/-- Loop body of SelectPrevious, with fuel: decrement, wrap to length-1 below
zero, same break conditions as selectLoopNext. -/
def selectLoopPrev (items : List MenuItem) : Nat → Nat → Nat
  | 0, sel => sel
  | fuel + 1, sel =>
    let s := if sel = 0 then items.length - 1 else sel - 1
    if ¬ itemDisabledAt items s then s
    else if allDisabled items then s
    else selectLoopPrev items fuel s

/-- updateScroll from menu.go: two sequential adjustments keeping the selected
row inside the window of maxVisible rows. -/
def updateScroll (m : Menu) : Menu :=
  let so :=
    if m.selected ≥ m.scrollOffset + m.maxVisible then m.selected - m.maxVisible + 1
    else m.scrollOffset
  let so2 := if m.selected < so then m.selected else so
  { m with scrollOffset := so2 }

/-- SelectNext from menu.go: run the skip-disabled loop forward, then adjust
the scroll window. -/
def SelectNext (m : Menu) : Menu :=
  updateScroll { m with selected := selectLoopNext m.Items (m.Items.length + 1) m.selected }

/-- SelectPrevious from menu.go: run the skip-disabled loop backward, then
adjust the scroll window. -/
def SelectPrevious (m : Menu) : Menu :=
  updateScroll { m with selected := selectLoopPrev m.Items (m.Items.length + 1) m.selected }

/-- The 4-item menu of the claim, with the item at index 2 disabled. -/
def menu4 : Menu :=
  { Title := "M", Items := [⟨"i0", false⟩, ⟨"i1", false⟩, ⟨"i2", true⟩, ⟨"i3", false⟩],
    selected := 0, scrollOffset := 0, maxVisible := 6 }

/-- A 2-item menu in which every item is disabled, selection on index 0. -/
def menuAllDisabled : Menu :=
  { Title := "M", Items := [⟨"a", true⟩, ⟨"b", true⟩],
    selected := 0, scrollOffset := 0, maxVisible := 6 }

end menu

namespace pfsense

/-- InterfaceMetrics from the pfsense metrics package. -/
structure InterfaceMetrics where
  Name : String
  Description : String
  Status : String
  IP : String
  RxBytes : Nat
  TxBytes : Nat
  deriving DecidableEq

/-- Metrics from the pfsense metrics package. LoadAvg and Uptime exist in the
Go struct but are only read inside screen drawing, which is modelled as an
opaque render call; CPU is the usage percentage, memory is in bytes. -/
structure Metrics where
  Hostname : String
  CPU : ℚ
  MemUsed : Nat
  MemTotal : Nat
  Interfaces : List InterfaceMetrics
  deriving DecidableEq

/-- The per-interface cumulative counters cached by the daemon (type
ifaceBytes in statusd.go). -/
structure ifaceBytes where
  tx : Nat
  rx : Nat
  deriving DecidableEq

/-- The per-interface derived rates (type ifaceRate in statusd.go), in
bytes per second. -/
structure ifaceRate where
  txRate : ℚ
  rxRate : ℚ
  deriving DecidableEq

/-- Go uint64 subtraction: wraps modulo 2^64 when the counter decreased.
Operands are byte counters below 2^64. -/
def sub64 (a b : Nat) : Nat := (a + 18446744073709551616 - b) % 18446744073709551616

/-- Go map membership for the association-list model of the daemon maps. -/
def keyMem {α : Type} (m : List (String × α)) (k : String) : Bool :=
  m.any (fun p => p.1 == k)

/-- Go map assignment m[k] = v: replace in place if present, append if not. -/
def mapInsert {α : Type} (m : List (String × α)) (k : String) (v : α) :
    List (String × α) :=
  if keyMem m k then m.map (fun p => if p.1 == k then (k, v) else p)
  else m ++ [(k, v)]

/-- MetricsHistory from statusd.go: bounded ring buffers plus the totals used
to difference successive samples. The zero time.Time value of the Go struct is
the none case of lastSampleTime. -/
structure MetricsHistory where
  CPUHistory : List ℚ
  TxRateHistory : List ℚ
  RxRateHistory : List ℚ
  maxSamples : Nat
  lastTxBytes : Nat
  lastRxBytes : Nat
  lastSampleTime : Option ℚ
  deriving DecidableEq

/-- NewMetricsHistory from statusd.go. -/
def NewMetricsHistory (maxSamples : Nat) : MetricsHistory :=
  { CPUHistory := [], TxRateHistory := [], RxRateHistory := [],
    maxSamples := maxSamples, lastTxBytes := 0, lastRxBytes := 0,
    lastSampleTime := none }

/-- The ring-buffer append of AddSample: when the buffer is full, shift left by
one (copy of the tail truncated to maxSamples-1), then append the new sample. -/
def ringAppend (l : List ℚ) (max : Nat) (v : ℚ) : List ℚ :=
  (if l.length ≥ max then (l.drop 1).take (max - 1) else l) ++ [v]

/-- Total of the TxBytes counters of a snapshot, accumulated in a uint64. -/
def totalTxOf (m : Metrics) : Nat :=
  m.Interfaces.foldl (fun a i => (a + i.TxBytes) % 18446744073709551616) 0

/-- Total of the RxBytes counters of a snapshot, accumulated in a uint64. -/
def totalRxOf (m : Metrics) : Nat :=
  m.Interfaces.foldl (fun a i => (a + i.RxBytes) % 18446744073709551616) 0

/-- AddSample from statusd.go, with the time.Now() of the call passed in as
now (seconds): append the CPU sample to the ring, and when a previous sample
time exists with positive elapsed time, append the aggregate tx and rx rates;
the totals and the sample time are stored unconditionally at the end. -/
def AddSample (h : MetricsHistory) (m : Metrics) (now : ℚ) : MetricsHistory :=
  let cpuH := ringAppend h.CPUHistory h.maxSamples m.CPU
  let totalTx := totalTxOf m
  let totalRx := totalRxOf m
  let (txH, rxH) :=
    match h.lastSampleTime with
    | none => (h.TxRateHistory, h.RxRateHistory)
    | some t =>
      let elapsed := now - t
      if 0 < elapsed then
        (ringAppend h.TxRateHistory h.maxSamples ((sub64 totalTx h.lastTxBytes : ℚ) / elapsed),
         ringAppend h.RxRateHistory h.maxSamples ((sub64 totalRx h.lastRxBytes : ℚ) / elapsed))
      else (h.TxRateHistory, h.RxRateHistory)
  { CPUHistory := cpuH, TxRateHistory := txH, RxRateHistory := rxH,
    maxSamples := h.maxSamples, lastTxBytes := totalTx, lastRxBytes := totalRx,
    lastSampleTime := some now }

/-- The closed, fixed set of screen kinds installed by NewStatusDaemon. -/
inductive ScreenKind
  | LogoScreen
  | CPUScreen
  | MemoryScreen
  | InterfaceScreen
  | WANTrafficScreen
  | TunnelTrafficScreen
  | LANTrafficScreen
  deriving DecidableEq

/-- StatusDaemon from statusd.go: the screen list, the rotation index, the
history, the frame counter, the per-interface byte and rate tables (Go maps,
modelled as association lists), the last sample time (none = zero time.Time)
and the cached snapshot (none = nil pointer, nothing fetched yet). -/
structure StatusDaemon where
  screens : List ScreenKind
  currentScreen : Nat
  history : MetricsHistory
  frameCount : Nat
  lastIfaceBytes : List (String × ifaceBytes)
  lastSampleTime : Option ℚ
  ifaceRates : List (String × ifaceRate)
  cachedMetrics : Option Metrics
  deriving DecidableEq

/-- NewStatusDaemon from statusd.go: the seven screens in order, empty maps,
12-sample history, no cached snapshot. -/
def NewStatusDaemon : StatusDaemon :=
  { screens := [.LogoScreen, .CPUScreen, .MemoryScreen, .InterfaceScreen,
      .WANTrafficScreen, .TunnelTrafficScreen, .LANTrafficScreen],
    currentScreen := 0, history := NewMetricsHistory 12, frameCount := 0,
    lastIfaceBytes := [], lastSampleTime := none, ifaceRates := [],
    cachedMetrics := none }

/-- The per-interface rate loop of fetchMetrics: for each interface of the new
snapshot in order, if the byte table already holds its counters record the
differenced rate, then store the new counters; both tables evolve through the
loop exactly as the Go maps do. -/
def rateFold (elapsed : ℚ) (ifaces : List InterfaceMetrics)
    (acc : List (String × ifaceRate) × List (String × ifaceBytes)) :
    List (String × ifaceRate) × List (String × ifaceBytes) :=
  ifaces.foldl (fun acc iface =>
    let newRates :=
      match List.lookup iface.Name acc.2 with
      | some last =>
        mapInsert acc.1 iface.Name
          { txRate := (sub64 iface.TxBytes last.tx : ℚ) / elapsed,
            rxRate := (sub64 iface.RxBytes last.rx : ℚ) / elapsed }
      | none => acc.1
    (newRates, mapInsert acc.2 iface.Name { tx := iface.TxBytes, rx := iface.RxBytes }))
    acc

/-- fetchMetrics from statusd.go, with the result of GetMetrics and the
time.Now() of the call passed in. On error it returns immediately and the
whole daemon state is untouched. On success it replaces the cached snapshot,
appends to the history, prunes from both tables every key of the byte table
that is absent from the new snapshot (keys only in the rate table are not
visited by the prune loop), recomputes the per-interface rates when a previous
sample time exists and time advanced, and stores the new sample time. -/
def fetchMetrics (sd : StatusDaemon) (res : Except Unit Metrics) (now : ℚ) :
    StatusDaemon :=
  match res with
  | .error _ => sd
  | .ok metrics =>
    let history := AddSample sd.history metrics now
    let currentNames := metrics.Interfaces.map (fun i => i.Name)
    let lastB := sd.lastIfaceBytes.filter (fun p => currentNames.contains p.1)
    let rates := sd.ifaceRates.filter
      (fun p => currentNames.contains p.1 || ! keyMem sd.lastIfaceBytes p.1)
    let (rates2, lastB2) :=
      (match sd.lastSampleTime with
       | none => (rates, lastB)
       | some t =>
         let elapsed := now - t
         if 0 < elapsed then rateFold elapsed metrics.Interfaces (rates, lastB)
         else (rates, lastB))
    { sd with
      cachedMetrics := some metrics
      history := history
      lastIfaceBytes := lastB2
      ifaceRates := rates2
      lastSampleTime := some now }

/-- Memory percentage as computed in updateLEDs: MemUsed / MemTotal * 100. -/
def memPctOf (m : Metrics) : ℚ := (m.MemUsed : ℚ) / (m.MemTotal : ℚ) * 100

/-- LED1 of updateLEDs, the info indicator: green on the logo screen (index 0),
orange on the three traffic screens (indices 4 to 6), off otherwise. -/
def ledInfo (currentScreen : Nat) : eziog500.LEDColor :=
  if currentScreen = 0 then .LEDGreen
  else if 4 ≤ currentScreen ∧ currentScreen ≤ 6 then .LEDOrange
  else .LEDOff

/-- LED2 of updateLEDs, the health indicator: red when CPU% > 90 or mem% > 90,
orange when CPU% > 70 or mem% > 80, green otherwise. -/
def ledHealth (cpu memPct : ℚ) : eziog500.LEDColor :=
  if cpu > 90 ∨ memPct > 90 then .LEDRed
  else if cpu > 70 ∨ memPct > 80 then .LEDOrange
  else .LEDGreen

/-- LED3 of updateLEDs, the home indicator: green on the logo screen, off
otherwise. -/
def ledHome (currentScreen : Nat) : eziog500.LEDColor :=
  if currentScreen = 0 then .LEDGreen else .LEDOff

/-- updateLEDs from statusd.go as the pure triple (LED1, LED2, LED3) it sets,
computed from the current screen index and the snapshot. -/
def updateLEDs (currentScreen : Nat) (m : Metrics) :
    eziog500.LEDColor × eziog500.LEDColor × eziog500.LEDColor :=
  (ledInfo currentScreen, ledHealth m.CPU (memPctOf m), ledHome currentScreen)

/-- The invocation of the active screen render routine: which screen, with
which snapshot and which frame counter value. -/
structure RenderCall where
  screen : ScreenKind
  metrics : Metrics
  frame : Nat
  deriving DecidableEq

/-- The externally visible effects of one render call: the LED triple set by
updateLEDs (none when it was skipped) and the screen render invocation (none
when nothing was drawn). -/
structure TickOutput where
  leds : Option (eziog500.LEDColor × eziog500.LEDColor × eziog500.LEDColor)
  rendered : Option RenderCall
  deriving DecidableEq

/-- render from statusd.go: with no cached snapshot, return at once having
done nothing; otherwise set the LEDs from the cache and the screen index, and
when the screen index is in range invoke that screen with the cached snapshot
and the current frame counter. -/
def render (sd : StatusDaemon) : TickOutput :=
  match sd.cachedMetrics with
  | none => { leds := none, rendered := none }
  | some m =>
    { leds := some (updateLEDs sd.currentScreen m),
      rendered :=
        if h : sd.currentScreen < sd.screens.length then
          some { screen := sd.screens.get ⟨sd.currentScreen, h⟩, metrics := m,
                 frame := sd.frameCount }
        else none }

/-- One firing of the animation ticker in Run: increment the frame counter,
then render. -/
def animTick (sd : StatusDaemon) : StatusDaemon × TickOutput :=
  let sd2 := { sd with frameCount := sd.frameCount + 1 }
  (sd2, render sd2)

end pfsense

/-- A concrete snapshot for the claim C9 witness. -/
def mSample : pfsense.Metrics :=
  { Hostname := "fw", CPU := 50, MemUsed := 1, MemTotal := 2, Interfaces := [] }

/-- NewStatusDaemon after a first successful fetch of mSample (cache filled,
frame counter still 0, logo screen active). -/
def sdSample : pfsense.StatusDaemon :=
  { pfsense.NewStatusDaemon with cachedMetrics := some mSample }

/-- Concrete previous daemon state for the claim C8 witness: the interfaces
em0 and em1 have cached counters, em0 also a cached rate. -/
def sdC8 : pfsense.StatusDaemon :=
  { pfsense.NewStatusDaemon with
    lastIfaceBytes := [("em0", { tx := 100, rx := 200 }), ("em1", { tx := 0, rx := 0 })]
    ifaceRates := [("em0", { txRate := 1, rxRate := 2 })] }

/-- Concrete next snapshot for the claim C8 witness: em0 is gone, em1 stays. -/
def mC8 : pfsense.Metrics :=
  { Hostname := "fw", CPU := 10, MemUsed := 1, MemTotal := 4,
    Interfaces := [{ Name := "em1", Description := "LAN", Status := "active",
                     IP := "10.0.0.1", RxBytes := 0, TxBytes := 0 }] }

namespace eziog500

/-- Bit `j` of a vertical byte recovers the pixel that produced it. -/
lemma byteOfColumn_testBit : ∀ (g : Fin 8 → Bool) (j : Fin 8),
    (byteOfColumn g).testBit j.val = g j := by decide

/-- Reading the encoded payload at the wire position of (band, x) yields the
vertical byte of (band, x). -/
lemma ToDeviceFormat_wireIndex (fb : FrameBuffer) (band : Fin 8) (x : Fin 128) :
    ToDeviceFormat fb (wireIndex band x) = bandByte fb band x := by
  have hb := band.isLt
  have hx := x.isLt
  unfold ToDeviceFormat wireIndex
  by_cases h64 : x.val < 64
  · simp only [h64, if_true]
    rw [dif_pos (by omega : band.val * 64 + x.val < 512)]
    congr 1
    · exact Fin.ext (by simp; omega)
    · exact Fin.ext (by simp; omega)
  · simp only [h64, if_false]
    rw [dif_neg (by omega : ¬(512 + band.val * 64 + (x.val - 64) < 512))]
    congr 1
    · exact Fin.ext (by simp; omega)
    · exact Fin.ext (by simp; omega)

end eziog500

namespace menu

/-- When every item is disabled, every in-range (and out-of-range) index tests
as disabled. -/
lemma itemDisabledAt_of_allDisabled {items : List MenuItem}
    (h : allDisabled items = true) (i : Nat) : itemDisabledAt items i = true := by
  unfold itemDisabledAt
  cases hg : items.get? i with
  | none => rfl
  | some it =>
    have hmem : it ∈ items := List.get?_mem hg
    exact List.all_eq_true.mp h it hmem

/-- updateScroll only moves the scroll window; the selected index is kept. -/
lemma updateScroll_selected (m : Menu) : (updateScroll m).selected = m.selected :=
  rfl

/-- When not every item is disabled, some in-range index is enabled. -/
lemma exists_enabled_index (items : List MenuItem)
    (hall : allDisabled items = false) :
    ∃ e, e < items.length ∧ itemDisabledAt items e = false := by
  unfold allDisabled at hall
  rw [List.all_eq_false] at hall
  obtain ⟨it, hmem, hdis⟩ := hall
  obtain ⟨n, hn⟩ := List.mem_iff_get.mp hmem
  refine ⟨n.val, n.isLt, ?_⟩
  unfold itemDisabledAt
  rw [List.get?_eq_get n.isLt]
  simp only []
  rw [Fin.eta, hn]
  simpa using hdis

/-- The wrap-forward step of SelectNext is the cyclic successor. -/
lemma wrapNext_eq_mod {len sel : Nat} (hsel : sel < len) :
    (if sel + 1 ≥ len then 0 else sel + 1) = (sel + 1) % len := by
  by_cases hge : sel + 1 ≥ len
  · have he : sel + 1 = len := by omega
    rw [if_pos hge, he, Nat.mod_self]
  · rw [if_neg hge, Nat.mod_eq_of_lt (by omega)]

/-- The wrap-backward step of SelectPrevious is the cyclic predecessor. -/
lemma wrapPrev_eq_mod {len sel : Nat} (hsel : sel < len) :
    (if sel = 0 then len - 1 else sel - 1) = (sel + (len - 1)) % len := by
  by_cases h0 : sel = 0
  · rw [if_pos h0, h0, Nat.zero_add, Nat.mod_eq_of_lt (by omega)]
  · rw [if_neg h0, show sel + (len - 1) = (sel - 1) + len by omega,
      Nat.add_mod_right, Nat.mod_eq_of_lt (by omega)]

/-- The forward loop of SelectNext stops exactly at the minimal positive
cyclic distance d whose slot is enabled, when all strictly smaller positive
distances lead to disabled slots and the fuel covers d. -/
lemma selectLoopNext_min (items : List MenuItem) :
    ∀ fuel sel d : Nat, sel < items.length → allDisabled items = false →
      1 ≤ d → d ≤ fuel →
      (∀ j, 1 ≤ j → j < d →
        itemDisabledAt items ((sel + j) % items.length) = true) →
      itemDisabledAt items ((sel + d) % items.length) = false →
      selectLoopNext items fuel sel = (sel + d) % items.length := by
  intro fuel
  induction fuel with
  | zero => intro sel d _ _ hd1 hdf _ _; omega
  | succ fuel ih =>
    intro sel d hsel hall hd1 hdf hmin henab
    have hlen : 0 < items.length := by omega
    simp only [selectLoopNext]
    rw [wrapNext_eq_mod hsel]
    rcases Nat.lt_or_ge 1 d with hd2 | hd1e
    · have hdis1 : itemDisabledAt items ((sel + 1) % items.length) = true :=
        hmin 1 le_rfl (by omega)
      rw [if_neg (by simp [hdis1]), if_neg (by simp [hall])]
      have hrec := ih ((sel + 1) % items.length) (d - 1)
        (Nat.mod_lt _ hlen) hall (by omega) (by omega)
        (fun j hj1 hjd => by
          have hm := hmin (j + 1) (by omega) (by omega)
          rw [Nat.mod_add_mod, show sel + 1 + j = sel + (j + 1) by omega]
          exact hm)
        (by
          rw [Nat.mod_add_mod, show sel + 1 + (d - 1) = sel + d by omega]
          exact henab)
      rw [hrec, Nat.mod_add_mod, show sel + 1 + (d - 1) = sel + d by omega]
    · have hd : d = 1 := by omega
      subst hd
      rw [if_pos (by simp [henab])]

/-- The backward loop of SelectPrevious stops exactly at the minimal positive
cyclic distance d backward whose slot is enabled, when all strictly smaller
positive backward distances lead to disabled slots and the fuel covers d. -/
lemma selectLoopPrev_min (items : List MenuItem) :
    ∀ fuel sel d : Nat, sel < items.length → allDisabled items = false →
      1 ≤ d → d ≤ items.length → d ≤ fuel →
      (∀ j, 1 ≤ j → j < d →
        itemDisabledAt items
          ((sel + (items.length - j)) % items.length) = true) →
      itemDisabledAt items ((sel + (items.length - d)) % items.length) = false →
      selectLoopPrev items fuel sel =
        (sel + (items.length - d)) % items.length := by
  intro fuel
  induction fuel with
  | zero => intro sel d _ _ hd1 _ hdf _ _; omega
  | succ fuel ih =>
    intro sel d hsel hall hd1 hdlen hdf hmin henab
    have hlen : 0 < items.length := by omega
    simp only [selectLoopPrev]
    rw [wrapPrev_eq_mod hsel]
    rcases Nat.lt_or_ge 1 d with hd2 | hd1e
    · have hdis1 : itemDisabledAt items
          ((sel + (items.length - 1)) % items.length) = true :=
        hmin 1 le_rfl (by omega)
      rw [if_neg (by simp [hdis1]), if_neg (by simp [hall])]
      have hrec := ih ((sel + (items.length - 1)) % items.length) (d - 1)
        (Nat.mod_lt _ hlen) hall (by omega) (by omega) (by omega)
        (fun j hj1 hjd => by
          have hm := hmin (j + 1) (by omega) (by omega)
          rw [Nat.mod_add_mod,
            show sel + (items.length - 1) + (items.length - j)
              = sel + (items.length - (j + 1)) + items.length by omega,
            Nat.add_mod_right]
          exact hm)
        (by
          rw [Nat.mod_add_mod,
            show sel + (items.length - 1) + (items.length - (d - 1))
              = sel + (items.length - d) + items.length by omega,
            Nat.add_mod_right]
          exact henab)
      rw [hrec, Nat.mod_add_mod,
        show sel + (items.length - 1) + (items.length - (d - 1))
          = sel + (items.length - d) + items.length by omega,
        Nat.add_mod_right]
    · have hd : d = 1 := by omega
      subst hd
      rw [if_pos (by simp [henab])]

/-- When some item is enabled, there is a minimal positive forward cyclic
distance whose slot is enabled, and it is at most the menu length. -/
lemma exists_min_next (items : List MenuItem) (sel : Nat)
    (hsel : sel < items.length) (hall : allDisabled items = false) :
    ∃ d, 1 ≤ d ∧ d ≤ items.length ∧
      itemDisabledAt items ((sel + d) % items.length) = false ∧
      ∀ j, 1 ≤ j → j < d →
        itemDisabledAt items ((sel + j) % items.length) = true := by
  obtain ⟨e, helt, henab⟩ := exists_enabled_index items hall
  have hlen : 0 < items.length := by omega
  have hwit : itemDisabledAt items
      ((sel + (1 + ((e + items.length - (sel + 1)) % items.length)))
        % items.length) = false := by
    rw [show sel + (1 + ((e + items.length - (sel + 1)) % items.length))
        = ((e + items.length - (sel + 1)) % items.length) + (sel + 1) by omega,
      Nat.mod_add_mod,
      show e + items.length - (sel + 1) + (sel + 1) = e + items.length by omega,
      Nat.add_mod_right, Nat.mod_eq_of_lt helt]
    exact henab
  have hP : ∃ d, 1 ≤ d ∧
      itemDisabledAt items ((sel + d) % items.length) = false :=
    ⟨1 + ((e + items.length - (sel + 1)) % items.length), by omega, hwit⟩
  refine ⟨Nat.find hP, (Nat.find_spec hP).1, ?_, (Nat.find_spec hP).2, ?_⟩
  · have hb := Nat.find_min' hP
      ⟨(by omega : 1 ≤ 1 + ((e + items.length - (sel + 1)) % items.length)), hwit⟩
    have hm : (e + items.length - (sel + 1)) % items.length < items.length :=
      Nat.mod_lt _ hlen
    omega
  · intro j hj1 hjd
    have hnot := Nat.find_min hP hjd
    cases hb : itemDisabledAt items ((sel + j) % items.length) with
    | false => exact absurd ⟨hj1, hb⟩ hnot
    | true => rfl

/-- When some item is enabled, there is a minimal positive backward cyclic
distance whose slot is enabled, and it is at most the menu length. -/
lemma exists_min_prev (items : List MenuItem) (sel : Nat)
    (hsel : sel < items.length) (hall : allDisabled items = false) :
    ∃ d, 1 ≤ d ∧ d ≤ items.length ∧
      itemDisabledAt items
        ((sel + (items.length - d)) % items.length) = false ∧
      ∀ j, 1 ≤ j → j < d →
        itemDisabledAt items
          ((sel + (items.length - j)) % items.length) = true := by
  obtain ⟨e, helt, henab⟩ := exists_enabled_index items hall
  have hlen : 0 < items.length := lt_of_le_of_lt (Nat.zero_le sel) hsel
  have hrlt : (sel + items.length - e - 1) % items.length < items.length :=
    Nat.mod_lt _ hlen
  have hwit : itemDisabledAt items
      ((sel + (items.length - (1 + ((sel + items.length - e - 1) % items.length))))
        % items.length) = false := by
    have hqr := Nat.div_add_mod (sel + items.length - e - 1) items.length
    rw [show sel + (items.length
          - (1 + ((sel + items.length - e - 1) % items.length)))
        = e + items.length * ((sel + items.length - e - 1) / items.length)
        by omega,
      Nat.add_mul_mod_self_left, Nat.mod_eq_of_lt helt]
    exact henab
  have hP : ∃ d, (1 ≤ d ∧ d ≤ items.length) ∧
      itemDisabledAt items
        ((sel + (items.length - d)) % items.length) = false :=
    ⟨1 + ((sel + items.length - e - 1) % items.length), ⟨by omega, by omega⟩, hwit⟩
  refine ⟨Nat.find hP, (Nat.find_spec hP).1.1, (Nat.find_spec hP).1.2,
    (Nat.find_spec hP).2, ?_⟩
  intro j hj1 hjd
  have hnot := Nat.find_min hP hjd
  have hjlen : j ≤ items.length := by
    have := (Nat.find_spec hP).1.2
    omega
  cases hb : itemDisabledAt items
      ((sel + (items.length - j)) % items.length) with
  | false => exact absurd ⟨⟨hj1, hjlen⟩, hb⟩ hnot
  | true => rfl

end menu

namespace pfsense

/-- Membership of a key in the association-list model of a Go map. -/
lemma keyMem_iff {α : Type} (m : List (String × α)) (k : String) :
    keyMem m k = true ↔ ∃ p ∈ m, p.1 = k := by
  unfold keyMem
  simp [List.any_eq_true]

/-- A key present after a Go map assignment is the assigned key or was already
present. -/
lemma keyMem_mapInsert_imp {α : Type} {m : List (String × α)} {k k' : String}
    {v : α} (h : keyMem (mapInsert m k v) k' = true) :
    k' = k ∨ keyMem m k' = true := by
  unfold mapInsert at h
  by_cases hk : keyMem m k
  · rw [if_pos hk] at h
    rcases (keyMem_iff _ _).mp h with ⟨p, hp, hpk⟩
    rcases List.mem_map.mp hp with ⟨q, hq, hfq⟩
    by_cases hqk : q.1 == k
    · left
      rw [if_pos hqk] at hfq
      rw [← hpk, ← hfq]
    · right
      rw [if_neg hqk] at hfq
      exact (keyMem_iff _ _).mpr ⟨q, hq, by rw [hfq, hpk]⟩
  · rw [if_neg hk] at h
    rcases (keyMem_iff _ _).mp h with ⟨p, hp, hpk⟩
    rcases List.mem_append.mp hp with hp | hp
    · exact Or.inr ((keyMem_iff _ _).mpr ⟨p, hp, hpk⟩)
    · left
      have : p = (k, v) := by simpa using hp
      rw [this] at hpk
      exact hpk.symm

/-- Every key that survives the per-interface rate loop was already a key of
the accumulator tables or names an interface of the new snapshot. -/
lemma rateFold_keys (elapsed : ℚ) (ifaces : List InterfaceMetrics)
    (acc : List (String × ifaceRate) × List (String × ifaceBytes)) (k : String) :
    keyMem (rateFold elapsed ifaces acc).1 k = true ∨
      keyMem (rateFold elapsed ifaces acc).2 k = true →
    keyMem acc.1 k = true ∨ keyMem acc.2 k = true ∨
      k ∈ ifaces.map (fun i => i.Name) := by
  induction ifaces generalizing acc with
  | nil =>
    intro h
    rw [show rateFold elapsed [] acc = acc from rfl] at h
    exact h.imp id Or.inl
  | cons i t ih =>
    intro h
    rw [show rateFold elapsed (i :: t) acc =
        rateFold elapsed t
          ((match List.lookup i.Name acc.2 with
            | some last =>
              mapInsert acc.1 i.Name
                { txRate := (sub64 i.TxBytes last.tx : ℚ) / elapsed,
                  rxRate := (sub64 i.RxBytes last.rx : ℚ) / elapsed }
            | none => acc.1),
           mapInsert acc.2 i.Name { tx := i.TxBytes, rx := i.RxBytes }) from rfl] at h
    rcases ih _ h with h1 | h2 | h3
    · cases hl : List.lookup i.Name acc.2 with
      | none =>
        rw [hl] at h1
        exact Or.inl h1
      | some last =>
        rw [hl] at h1
        rcases keyMem_mapInsert_imp h1 with he | hm
        · exact Or.inr (Or.inr (by simp [he]))
        · exact Or.inl hm
    · rcases keyMem_mapInsert_imp h2 with he | hm
      · exact Or.inr (Or.inr (by simp [he]))
      · exact Or.inr (Or.inl hm)
    · exact Or.inr (Or.inr (by simp [h3]))

/-- Every key of the pruned byte table names an interface of the new
snapshot. -/
lemma pruned_bytes_keys (sd : StatusDaemon) (currentNames : List String)
    (k : String)
    (h : keyMem (sd.lastIfaceBytes.filter
        (fun p => currentNames.contains p.1)) k = true) :
    k ∈ currentNames := by
  rcases (keyMem_iff _ _).mp h with ⟨p, hp, hpk⟩
  have hf := List.mem_filter.mp hp
  rw [← hpk]
  simpa using hf.2

/-- Under the reachable-state invariant (every rate-table key is a byte-table
key), every key of the pruned rate table names an interface of the new
snapshot. -/
lemma pruned_rates_keys (sd : StatusDaemon) (currentNames : List String)
    (hinv : ∀ k, keyMem sd.ifaceRates k = true → keyMem sd.lastIfaceBytes k = true)
    (k : String)
    (h : keyMem (sd.ifaceRates.filter
        (fun p => currentNames.contains p.1 || ! keyMem sd.lastIfaceBytes p.1)) k
        = true) :
    k ∈ currentNames := by
  rcases (keyMem_iff _ _).mp h with ⟨p, hp, hpk⟩
  have hf := List.mem_filter.mp hp
  have hkey : keyMem sd.ifaceRates p.1 = true :=
    (keyMem_iff _ _).mpr ⟨p, hf.1, rfl⟩
  have hbyte := hinv p.1 hkey
  have hor := hf.2
  rw [Bool.or_eq_true] at hor
  rcases hor with hc | hnb
  · rw [← hpk]
    simpa using hc
  · rw [hbyte] at hnb
    simp at hnb

/-- A Go map assignment makes the assigned key present. -/
lemma keyMem_mapInsert_self {α : Type} (m : List (String × α)) (k : String)
    (v : α) : keyMem (mapInsert m k v) k = true := by
  unfold mapInsert
  by_cases hk : keyMem m k
  · rw [if_pos hk]
    rcases (keyMem_iff _ _).mp hk with ⟨q, hq, hqk⟩
    refine (keyMem_iff _ _).mpr ⟨(k, v), List.mem_map.mpr ⟨q, hq, ?_⟩, rfl⟩
    rw [if_pos (by simp [hqk])]
  · rw [if_neg hk]
    exact (keyMem_iff _ _).mpr ⟨(k, v), by simp, rfl⟩

/-- A Go map assignment keeps every previously present key present. -/
lemma keyMem_mapInsert_mono {α : Type} {m : List (String × α)} {k' : String}
    (k : String) (v : α) (h : keyMem m k' = true) :
    keyMem (mapInsert m k v) k' = true := by
  unfold mapInsert
  by_cases hk : keyMem m k
  · rw [if_pos hk]
    rcases (keyMem_iff _ _).mp h with ⟨q, hq, hqk⟩
    by_cases hqeq : q.1 == k
    · refine (keyMem_iff _ _).mpr ⟨(k, v), List.mem_map.mpr ⟨q, hq, ?_⟩, ?_⟩
      · rw [if_pos hqeq]
      · have : q.1 = k := by simpa using hqeq
        rw [← this, hqk]
    · refine (keyMem_iff _ _).mpr ⟨q, List.mem_map.mpr ⟨q, hq, ?_⟩, hqk⟩
      rw [if_neg hqeq]
  · rw [if_neg hk]
    rcases (keyMem_iff _ _).mp h with ⟨q, hq, hqk⟩
    exact (keyMem_iff _ _).mpr ⟨q, List.mem_append_left _ hq, hqk⟩

/-- The per-interface rate loop preserves the invariant that every rate-table
key is a byte-table key: it records a rate only for a name whose counters it
stores in the same iteration. -/
lemma rateFold_preserves_inv (elapsed : ℚ) (ifaces : List InterfaceMetrics)
    (acc : List (String × ifaceRate) × List (String × ifaceBytes))
    (hacc : ∀ k, keyMem acc.1 k = true → keyMem acc.2 k = true) :
    ∀ k, keyMem (rateFold elapsed ifaces acc).1 k = true →
      keyMem (rateFold elapsed ifaces acc).2 k = true := by
  induction ifaces generalizing acc with
  | nil =>
    intro k h
    rw [show rateFold elapsed [] acc = acc from rfl] at h ⊢
    exact hacc k h
  | cons i t ih =>
    intro k h
    rw [show rateFold elapsed (i :: t) acc =
        rateFold elapsed t
          ((match List.lookup i.Name acc.2 with
            | some last =>
              mapInsert acc.1 i.Name
                { txRate := (sub64 i.TxBytes last.tx : ℚ) / elapsed,
                  rxRate := (sub64 i.RxBytes last.rx : ℚ) / elapsed }
            | none => acc.1),
           mapInsert acc.2 i.Name { tx := i.TxBytes, rx := i.RxBytes }) from rfl]
      at h ⊢
    refine ih _ ?_ k h
    intro k' h'
    cases hl : List.lookup i.Name acc.2 with
    | none =>
      rw [hl] at h'
      exact keyMem_mapInsert_mono _ _ (hacc k' h')
    | some last =>
      rw [hl] at h'
      rcases keyMem_mapInsert_imp h' with he | hm
      · rw [he]
        exact keyMem_mapInsert_self _ _ _
      · exact keyMem_mapInsert_mono _ _ (hacc k' hm)

/-- After the prune step, every rate-table key is still a byte-table key. -/
lemma pruned_inv (sd : StatusDaemon) (currentNames : List String)
    (hinv : ∀ k, keyMem sd.ifaceRates k = true →
      keyMem sd.lastIfaceBytes k = true) :
    ∀ k, keyMem (sd.ifaceRates.filter
        (fun p => currentNames.contains p.1 || ! keyMem sd.lastIfaceBytes p.1)) k
        = true →
      keyMem (sd.lastIfaceBytes.filter
        (fun p => currentNames.contains p.1)) k = true := by
  intro k h
  rcases (keyMem_iff _ _).mp h with ⟨p, hp, hpk⟩
  have hf := List.mem_filter.mp hp
  have hkey : keyMem sd.ifaceRates p.1 = true := (keyMem_iff _ _).mpr ⟨p, hf.1, rfl⟩
  have hbyte := hinv p.1 hkey
  have hcur : currentNames.contains p.1 = true := by
    have hor := hf.2
    rw [Bool.or_eq_true] at hor
    rcases hor with hc | hnb
    · exact hc
    · rw [hbyte] at hnb
      simp at hnb
  rcases (keyMem_iff _ _).mp hbyte with ⟨q, hq, hqk⟩
  refine (keyMem_iff _ _).mpr ⟨q, List.mem_filter.mpr ⟨hq, ?_⟩, by rw [hqk, hpk]⟩
  simpa [hqk, hpk] using hcur

/-- The invariant of claim C8 holds initially: both tables of NewStatusDaemon
are empty. -/
lemma NewStatusDaemon_inv :
    ∀ k, keyMem NewStatusDaemon.ifaceRates k = true →
      keyMem NewStatusDaemon.lastIfaceBytes k = true := by
  intro k h
  simp [NewStatusDaemon, keyMem] at h

/-- The invariant of claim C8 is preserved by every fetchMetrics call,
successful or not, so it holds in every reachable daemon state. -/
lemma fetchMetrics_preserves_inv (sd : StatusDaemon) (res : Except Unit Metrics)
    (now : ℚ)
    (hinv : ∀ k, keyMem sd.ifaceRates k = true →
      keyMem sd.lastIfaceBytes k = true) :
    ∀ k, keyMem (fetchMetrics sd res now).ifaceRates k = true →
      keyMem (fetchMetrics sd res now).lastIfaceBytes k = true := by
  cases res with
  | error e => exact hinv
  | ok metrics =>
    intro k h
    have hpr := pruned_inv sd (metrics.Interfaces.map (fun i => i.Name)) hinv
    unfold fetchMetrics at h ⊢
    cases hts : sd.lastSampleTime with
    | none =>
      rw [hts] at h
      simp only at h ⊢
      exact hpr k h
    | some t =>
      rw [hts] at h
      simp only at h ⊢
      by_cases he : 0 < now - t
      · rw [if_pos he] at h ⊢
        exact rateFold_preserves_inv _ _ _ hpr k h
      · rw [if_neg he] at h ⊢
        exact hpr k h

end pfsense

/-- Claim C1: for every FrameBuffer, decoding the result of encoding it yields
the identical pixel grid: FromDeviceFormat(ToDeviceFormat(fb)) == fb. -/
theorem claim_C1_roundtrip (fb : eziog500.FrameBuffer) :
    eziog500.FromDeviceFormat (eziog500.ToDeviceFormat fb) = fb := by
  funext y x
  have hy := y.isLt
  have hx := x.isLt
  show (eziog500.ToDeviceFormat fb
      (eziog500.wireIndex ⟨y.val / 8, by omega⟩ x)).testBit (y.val % 8) = fb y x
  rw [eziog500.ToDeviceFormat_wireIndex]
  have h8 : y.val % 8 < 8 := Nat.mod_lt _ (by norm_num)
  have hbit := eziog500.byteOfColumn_testBit
    (fun bit => fb ⟨(⟨y.val / 8, by omega⟩ : Fin 8).val * 8 + bit.val, by omega⟩ x)
    ⟨y.val % 8, h8⟩
  rw [eziog500.bandByte]
  rw [hbit]
  have hfin : (⟨(⟨y.val / 8, by omega⟩ : Fin 8).val * 8 + (⟨y.val % 8, h8⟩ : Fin 8).val,
      by omega⟩ : Fin 64) = y := Fin.ext (by simp; omega)
  rw [hfin]

/-- Claim C2: encoding the framebuffer whose only lit pixels are (0,0) and (0,7)
gives byte 0x81 at payload index 0 and zero everywhere else. -/
theorem claim_C2_wire_exactness :
    ∀ i : Fin 1024, eziog500.ToDeviceFormat eziog500.fbTwoPixels i =
      if i.val = 0 then 0x81 else 0 := by decide

/-- Claim C3 counterexample: Open returns no I/O error even for a path that does
not exist — the Go code never opens the path, so the result is independent of
the filesystem; at the concrete input "/nonexistent" the error is nil and a
Device value is handed out with an empty buffer and no acquired handle. -/
theorem claim_C3_counterexample :
    (eziog500.Open ("/nonexistent")).2 = none ∧
      (eziog500.Open ("/nonexistent")).1.buffer = [] := ⟨rfl, rfl⟩

/-- Claim C3 amended: Open(path) always succeeds, for every path: it returns a
Device recording the path, the default 1 ms command delay and an empty pending
buffer, together with a nil error. No serial handle is acquired at open time;
I/O errors can only surface later, from the flush path that spawns cu. -/
theorem claim_C3_amended (path : String) :
    eziog500.Open path =
      ({ portPath := path, commandDelay := eziog500.DefaultCommandDelay,
         buffer := [] }, none) := rfl

/-- Claim C10: Device.Write never fails: for every device state and byte slice,
Write appends exactly those bytes to the pending buffer, leaves the path and
command delay unchanged, and returns a nil error. -/
theorem claim_C10_write_never_fails (d : eziog500.Device) (data : List Nat) :
    (eziog500.Write d data).2 = none ∧
      (eziog500.Write d data).1.buffer = d.buffer ++ data ∧
      (eziog500.Write d data).1.portPath = d.portPath ∧
      (eziog500.Write d data).1.commandDelay = d.commandDelay :=
  ⟨rfl, rfl, rfl, rfl⟩

/-- Claim C6: Flush on an empty pending buffer is a no-op that succeeds, for
any cu outcome (hence idempotent); whenever Flush returns an error the whole
device — its pending buffer included — is unchanged; and when the cu
interaction fails on a nonempty buffer, an error is in fact returned. -/
theorem claim_C6_flush (d : eziog500.Device) (cu : eziog500.CuOutcome) :
    (d.buffer = [] → eziog500.Flush d cu = (d, none)) ∧
      (∀ e, (eziog500.Flush d cu).2 = some e → (eziog500.Flush d cu).1 = d) ∧
      (d.buffer ≠ [] →
        (cu = .stdinPipeErr ∨ cu = .startErr ∨ cu = .writeErr) →
        ((eziog500.Flush d cu).2.isSome ∧ (eziog500.Flush d cu).1 = d)) := by
  unfold eziog500.Flush eziog500.flushWithCu
  by_cases hb : d.buffer.isEmpty
  · have : d.buffer = [] := List.isEmpty_iff.mp hb
    simp [hb, this]
  · have hne : d.buffer ≠ [] := fun h => hb (by simp [h])
    cases cu <;> simp [hb, hne]

/-- Witness for claim C6 at a concrete device: the empty-buffer no-op, and the
error path on a one-byte buffer with a failing write to cu. -/
theorem claim_C6_flush_witness :
    eziog500.Flush ⟨"/dev/cuau1", 1, []⟩ (.ok false) = (⟨"/dev/cuau1", 1, []⟩, none) ∧
      ((eziog500.Flush ⟨"/dev/cuau1", 1, [12]⟩ .writeErr).2.isSome ∧
        (eziog500.Flush ⟨"/dev/cuau1", 1, [12]⟩ .writeErr).1 = ⟨"/dev/cuau1", 1, [12]⟩) := by
  constructor
  · exact (claim_C6_flush ⟨"/dev/cuau1", 1, []⟩ (.ok false)).1 rfl
  · exact (claim_C6_flush ⟨"/dev/cuau1", 1, [12]⟩ .writeErr).2.2 (by decide)
      (Or.inr (Or.inr rfl))

/-- Claim C5 counterexample: in a 2-item menu whose items are both disabled,
SelectNext from index 0 terminates but moves the selected index to 1 — the
selected index does change, contradicting the claim that it stays put. -/
theorem claim_C5_counterexample :
    menu.menuAllDisabled.selected = 0 ∧
      (menu.SelectNext menu.menuAllDisabled).selected = 1 := by
  exact ⟨rfl, rfl⟩

/-- Claim C5 amended: for every menu whose selected index is in range and that
has at least one enabled item, SelectNext (SelectPrevious) moves the selected
index to the next (previous) non-disabled item with wrap-around, skipping
disabled items: the new index sits at the minimal positive cyclic distance d
forward (backward) whose item is enabled, every strictly closer position being
disabled — so from index 0 in the 4-item menu with item 2 disabled, successive
SelectNext calls visit 1, 3, 0, 1 and SelectPrevious visits 3 — and when every
item of a nonempty menu is disabled, the call terminates with the selected
index advanced by exactly one position (with wrap-around) rather than left
unchanged. -/
theorem claim_C5_amended :
    ((menu.SelectNext menu.menu4).selected = 1 ∧
      (menu.SelectNext (menu.SelectNext menu.menu4)).selected = 3 ∧
      (menu.SelectNext (menu.SelectNext (menu.SelectNext menu.menu4))).selected = 0 ∧
      (menu.SelectNext (menu.SelectNext (menu.SelectNext
        (menu.SelectNext menu.menu4)))).selected = 1 ∧
      (menu.SelectPrevious menu.menu4).selected = 3) ∧
    (∀ m : menu.Menu, m.Items ≠ [] → menu.allDisabled m.Items = true →
      (menu.SelectNext m).selected =
          (if m.selected + 1 ≥ m.Items.length then 0 else m.selected + 1) ∧
        (menu.SelectPrevious m).selected =
          (if m.selected = 0 then m.Items.length - 1 else m.selected - 1)) ∧
    (∀ m : menu.Menu, m.selected < m.Items.length →
      menu.allDisabled m.Items = false →
      (∃ d, 1 ≤ d ∧ d ≤ m.Items.length ∧
        (menu.SelectNext m).selected = (m.selected + d) % m.Items.length ∧
        menu.itemDisabledAt m.Items
          ((m.selected + d) % m.Items.length) = false ∧
        ∀ j, 1 ≤ j → j < d →
          menu.itemDisabledAt m.Items
            ((m.selected + j) % m.Items.length) = true) ∧
      (∃ d, 1 ≤ d ∧ d ≤ m.Items.length ∧
        (menu.SelectPrevious m).selected =
          (m.selected + (m.Items.length - d)) % m.Items.length ∧
        menu.itemDisabledAt m.Items
          ((m.selected + (m.Items.length - d)) % m.Items.length) = false ∧
        ∀ j, 1 ≤ j → j < d →
          menu.itemDisabledAt m.Items
            ((m.selected + (m.Items.length - j)) % m.Items.length) = true)) := by
  refine ⟨⟨rfl, rfl, rfl, rfl, rfl⟩, ?_, ?_⟩
  · intro m hne hall
    have hlen : m.Items.length ≠ 0 := fun h => hne (List.length_eq_zero.mp h)
    constructor
    · unfold menu.SelectNext menu.selectLoopNext
      have hd := menu.itemDisabledAt_of_allDisabled hall
        (if m.selected + 1 ≥ m.Items.length then 0 else m.selected + 1)
      simp [menu.updateScroll, hd, hall]
    · unfold menu.SelectPrevious menu.selectLoopPrev
      have hd := menu.itemDisabledAt_of_allDisabled hall
        (if m.selected = 0 then m.Items.length - 1 else m.selected - 1)
      simp [menu.updateScroll, hd, hall]
  · intro m hsel hall
    constructor
    · obtain ⟨d, hd1, hdlen, henab, hmin⟩ :=
        menu.exists_min_next m.Items m.selected hsel hall
      refine ⟨d, hd1, hdlen, ?_, henab, hmin⟩
      show (menu.updateScroll _).selected = _
      rw [menu.updateScroll_selected]
      exact menu.selectLoopNext_min m.Items (m.Items.length + 1) m.selected d
        hsel hall hd1 (by omega) hmin henab
    · obtain ⟨d, hd1, hdlen, henab, hmin⟩ :=
        menu.exists_min_prev m.Items m.selected hsel hall
      refine ⟨d, hd1, hdlen, ?_, henab, hmin⟩
      show (menu.updateScroll _).selected = _
      rw [menu.updateScroll_selected]
      exact menu.selectLoopPrev_min m.Items (m.Items.length + 1) m.selected d
        hsel hall hd1 hdlen (by omega) hmin henab

/-- Witness for claim C5: the all-disabled clause at the concrete 2-item menu,
and the general skip law instantiated at the 4-item menu with item 2
disabled. -/
theorem claim_C5_amended_witness :
    ((menu.SelectNext menu.menuAllDisabled).selected = 1 ∧
      (menu.SelectPrevious menu.menuAllDisabled).selected = 1) ∧
    ((∃ d, 1 ≤ d ∧ d ≤ menu.menu4.Items.length ∧
        (menu.SelectNext menu.menu4).selected =
          (menu.menu4.selected + d) % menu.menu4.Items.length ∧
        menu.itemDisabledAt menu.menu4.Items
          ((menu.menu4.selected + d) % menu.menu4.Items.length) = false ∧
        ∀ j, 1 ≤ j → j < d →
          menu.itemDisabledAt menu.menu4.Items
            ((menu.menu4.selected + j) % menu.menu4.Items.length) = true) ∧
      (∃ d, 1 ≤ d ∧ d ≤ menu.menu4.Items.length ∧
        (menu.SelectPrevious menu.menu4).selected =
          (menu.menu4.selected + (menu.menu4.Items.length - d))
            % menu.menu4.Items.length ∧
        menu.itemDisabledAt menu.menu4.Items
          ((menu.menu4.selected + (menu.menu4.Items.length - d))
            % menu.menu4.Items.length) = false ∧
        ∀ j, 1 ≤ j → j < d →
          menu.itemDisabledAt menu.menu4.Items
            ((menu.menu4.selected + (menu.menu4.Items.length - j))
              % menu.menu4.Items.length) = true)) := by
  constructor
  · have h := claim_C5_amended.2.1 menu.menuAllDisabled (by decide) (by decide)
    exact ⟨by simpa using h.1, by simpa using h.2⟩
  · exact claim_C5_amended.2.2 menu.menu4 (by decide) (by decide)

/-- Claim C4: the health LED is Red iff CPU% > 90 or mem% > 90; otherwise
Orange iff CPU% > 70 or mem% > 80; otherwise Green; with the concrete boundary
cases CPU=70,mem=50 Green, CPU=71 Orange, CPU=95 Red and CPU=90 Orange
(thresholds are exclusive). -/
theorem claim_C4_health_thresholds :
    (∀ c m : ℚ,
      (pfsense.ledHealth c m = .LEDRed ↔ (c > 90 ∨ m > 90)) ∧
        (¬(c > 90 ∨ m > 90) →
          (pfsense.ledHealth c m = .LEDOrange ↔ (c > 70 ∨ m > 80))) ∧
        (¬(c > 90 ∨ m > 90) → ¬(c > 70 ∨ m > 80) →
          pfsense.ledHealth c m = .LEDGreen)) ∧
      pfsense.ledHealth 70 50 = .LEDGreen ∧
      pfsense.ledHealth 71 50 = .LEDOrange ∧
      pfsense.ledHealth 95 50 = .LEDRed ∧
      pfsense.ledHealth 90 50 = .LEDOrange := by
  refine ⟨?_, by norm_num [pfsense.ledHealth], by norm_num [pfsense.ledHealth],
    by norm_num [pfsense.ledHealth], by norm_num [pfsense.ledHealth]⟩
  intro c m
  unfold pfsense.ledHealth
  split_ifs with h1 h2 <;> simp_all

/-- Witness for claim C4 at the concrete input CPU=60, mem=60: Green. -/
theorem claim_C4_health_witness : pfsense.ledHealth 60 60 = .LEDGreen :=
  (claim_C4_health_thresholds.1 60 60).2.2 (by norm_num) (by norm_num)

/-- Claim C7: when GetMetrics fails, fetchMetrics returns before touching
anything: the cached snapshot, the history, the byte-counter table, the rate
table and the sample time all keep their previous values — in fact the whole
daemon state is unchanged — and the render path sees exactly what it saw
before (fetchMetrics has no error channel towards rendering). -/
theorem claim_C7_metrics_failure (sd : pfsense.StatusDaemon) (e : Unit) (now : ℚ) :
    pfsense.fetchMetrics sd (.error e) now = sd ∧
      (pfsense.fetchMetrics sd (.error e) now).cachedMetrics = sd.cachedMetrics ∧
      (pfsense.fetchMetrics sd (.error e) now).history = sd.history ∧
      (pfsense.fetchMetrics sd (.error e) now).lastIfaceBytes = sd.lastIfaceBytes ∧
      (pfsense.fetchMetrics sd (.error e) now).ifaceRates = sd.ifaceRates ∧
      pfsense.render (pfsense.fetchMetrics sd (.error e) now) = pfsense.render sd :=
  ⟨rfl, rfl, rfl, rfl, rfl, rfl⟩

/-- Claim C9 counterexample: on a render tick with an empty metrics cache the
code renders nothing and sets no LED, but the daemon state is not unchanged —
the frame counter has already been incremented from 0 to 1 before render
checks the cache. -/
theorem claim_C9_counterexample :
    (pfsense.animTick pfsense.NewStatusDaemon).2 =
        { leds := none, rendered := none } ∧
      (pfsense.animTick pfsense.NewStatusDaemon).1.frameCount = 1 ∧
      pfsense.NewStatusDaemon.frameCount = 0 ∧
      (pfsense.animTick pfsense.NewStatusDaemon).1 ≠ pfsense.NewStatusDaemon := by
  refine ⟨rfl, rfl, rfl, fun h => ?_⟩
  have := congrArg pfsense.StatusDaemon.frameCount h
  simp [pfsense.animTick, pfsense.NewStatusDaemon] at this

/-- Claim C9 amended: on every render tick the frame counter is incremented by
one, unconditionally; if the cache is still empty nothing further happens (no
LEDs set, no screen rendered, every other field unchanged); otherwise the LED
triple is recomputed from the cached snapshot and the current screen index,
and the active screen render routine is invoked with the cached snapshot and
the incremented frame counter. -/
theorem claim_C9_amended (sd : pfsense.StatusDaemon) :
    (pfsense.animTick sd).1.frameCount = sd.frameCount + 1 ∧
      (sd.cachedMetrics = none →
        (pfsense.animTick sd).2 = { leds := none, rendered := none } ∧
          (pfsense.animTick sd).1 = { sd with frameCount := sd.frameCount + 1 }) ∧
      (∀ m, sd.cachedMetrics = some m →
        (pfsense.animTick sd).2.leds =
            some (pfsense.updateLEDs sd.currentScreen m) ∧
          ∀ h : sd.currentScreen < sd.screens.length,
            (pfsense.animTick sd).2.rendered =
              some { screen := sd.screens.get ⟨sd.currentScreen, h⟩, metrics := m,
                     frame := sd.frameCount + 1 }) := by
  refine ⟨rfl, ?_, ?_⟩
  · intro h
    exact ⟨by simp [pfsense.animTick, pfsense.render, h], rfl⟩
  · intro m hm
    constructor
    · simp [pfsense.animTick, pfsense.render, hm]
    · intro h
      simp [pfsense.animTick, pfsense.render, hm, h]

/-- Witness for claim C9 at the concrete daemon sdSample: the tick recomputes
the LEDs from the cache and invokes the logo screen with the cached snapshot
and frame counter 1. -/
theorem claim_C9_amended_witness :
    (pfsense.animTick sdSample).2.leds = some (pfsense.updateLEDs 0 mSample) ∧
      (pfsense.animTick sdSample).2.rendered =
        some { screen := .LogoScreen, metrics := mSample, frame := 1 } := by
  have h := (claim_C9_amended sdSample).2.2 mSample rfl
  refine ⟨h.1, ?_⟩
  have h2 := h.2 (by norm_num [sdSample, pfsense.NewStatusDaemon])
  simpa [sdSample, pfsense.NewStatusDaemon] using h2

/-- Claim C8: after a successful metrics refresh, the per-interface rate table
and byte-counter table hold entries only for interface names present in the
new snapshot — any interface of the previous state absent from the snapshot
has been pruned from both. The hypothesis is the reachable-state invariant
that every rate-table key is also a byte-table key: it holds for
NewStatusDaemon (both tables empty) and is preserved by every refresh (the
rate loop only records a rate for a name whose counters it also stores). -/
theorem claim_C8_stale_pruning (sd : pfsense.StatusDaemon)
    (metrics : pfsense.Metrics) (now : ℚ)
    (hinv : ∀ k, pfsense.keyMem sd.ifaceRates k = true →
      pfsense.keyMem sd.lastIfaceBytes k = true) :
    ∀ k, (pfsense.keyMem (pfsense.fetchMetrics sd (.ok metrics) now).ifaceRates k
            = true ∨
          pfsense.keyMem (pfsense.fetchMetrics sd (.ok metrics) now).lastIfaceBytes k
            = true) →
      k ∈ metrics.Interfaces.map (fun i => i.Name) := by
  intro k hk
  have hlastB := pfsense.pruned_bytes_keys sd
    (metrics.Interfaces.map (fun i => i.Name)) k
  have hrates := pfsense.pruned_rates_keys sd
    (metrics.Interfaces.map (fun i => i.Name)) hinv k
  unfold pfsense.fetchMetrics at hk
  cases hts : sd.lastSampleTime with
  | none =>
    rw [hts] at hk
    simp only at hk
    rcases hk with hk | hk
    · exact hrates hk
    · exact hlastB hk
  | some t =>
    rw [hts] at hk
    simp only at hk
    by_cases he : 0 < now - t
    · rw [if_pos he] at hk
      rcases pfsense.rateFold_keys _ _ _ _ hk with h1 | h2 | h3
      · exact hrates h1
      · exact hlastB h2
      · exact h3
    · rw [if_neg he] at hk
      rcases hk with hk | hk
      · exact hrates hk
      · exact hlastB hk

/-- Witness for claim C8: refreshing sdC8 with snapshot mC8 leaves only names
of the new snapshot in the tables (em1 is such a key of the byte table; em0
was pruned from both tables). -/
theorem claim_C8_stale_pruning_witness :
    ("em1" : String) ∈ mC8.Interfaces.map (fun i => i.Name) :=
  claim_C8_stale_pruning sdC8 mC8 5
    (by
      intro k h
      simp [pfsense.keyMem, sdC8, pfsense.NewStatusDaemon] at h ⊢
      tauto)
    "em1" (Or.inr (by decide))
